import Mathlib

/-!
Shallow embedding of the playback-state-tracking and recommendation-scoring
core of the Netflix-clone backend (Express + Mongoose), and proofs about it.

Modelling conventions:
  * JavaScript numbers are modelled as exact rationals; all arithmetic in
    the verified claims (percentages, thresholds 5/90, weights in 0.5 steps)
    is exactly representable, so no float rounding is at issue.
  * Mongoose ObjectIds are modelled as naturals; timestamps as naturals.
  * A document store collection is a Lean list; a mongo query becomes a
    List.filter / List.find?, a sort becomes a stable insertion sort on the
    sort key, and a limit becomes List.take.
-/

namespace NetflixClone

/-- Subscription plan tier, per the schema enum
['free', 'basic', 'standard', 'premium'] in User.model.js and
Content.model.js (subscriptionRequired). -/
inductive Plan where
  | free
  | basic
  | standard
  | premium
deriving Repr, DecidableEq

/-- planHierarchy.indexOf in startPlayback:
const planHierarchy = ['free', 'basic', 'standard', 'premium']. -/
def planIndex : Plan → Nat
  | .free => 0
  | .basic => 1
  | .standard => 2
  | .premium => 3

/-- The progress subdocument of playbackSessionSchema. -/
structure Progress where
  currentTime : ℚ
  duration : ℚ
  percentage : ℚ
deriving Repr, DecidableEq

/-- A PlaybackSession document (PlaybackSession.model.js).  Fields not
referenced by any verified claim (quality, device, startedAt) are omitted. -/
structure PlaybackSession where
  id : Nat
  userId : Nat
  contentId : Nat
  episodeId : Option String
  progress : Progress
  completed : Bool
  lastUpdated : Nat
  sessionDuration : ℚ
deriving Repr, DecidableEq

/-- The playbackSessionSchema.pre('save') hook:
if progress.duration > 0, recompute progress.percentage as
currentTime / duration * 100 and set completed once that percentage is at
least 90 (completed is never assigned false); always refresh lastUpdated. -/
def preSaveHook (now : Nat) (s : PlaybackSession) : PlaybackSession :=
  if 0 < s.progress.duration then
    if 90 ≤ s.progress.currentTime / s.progress.duration * 100 then
      { s with
        progress := { currentTime := s.progress.currentTime
                      duration := s.progress.duration
                      percentage := s.progress.currentTime / s.progress.duration * 100 }
        completed := true
        lastUpdated := now }
    else
      { s with
        progress := { currentTime := s.progress.currentTime
                      duration := s.progress.duration
                      percentage := s.progress.currentTime / s.progress.duration * 100 }
        lastUpdated := now }
  else { s with lastUpdated := now }

/-- JavaScript truthiness fallback x || 0 applied to a number. -/
def jsOrZero (x : ℚ) : ℚ := if x = 0 then 0 else x

/-- The else-branch of updateProgress (playback.controller.js) on an
existing session, followed by session.save() which runs the pre-save hook:

  session.progress.currentTime = currentTime;
  session.progress.duration = duration;
  session.sessionDuration += (currentTime - (session.progress.currentTime || 0));
  await session.save();

The source assigns the new currentTime to session.progress.currentTime
before reading it back in the delta, so the value subtracted is
jsOrZero currentTime (the field just written), not the prior position. -/
def updateExistingSession (now : Nat) (s : PlaybackSession)
    (currentTime duration : ℚ) : PlaybackSession :=
  preSaveHook now
    { s with
      progress := { currentTime := currentTime
                    duration := duration
                    percentage := s.progress.percentage }
      sessionDuration := s.sessionDuration + (currentTime - jsOrZero currentTime) }

/-- PlaybackSession.create in updateProgress when no session matches:
progress is { currentTime, duration }; create runs the pre-save hook. -/
def createSession (freshId uid cid : Nat) (eid : Option String)
    (currentTime duration : ℚ) (now : Nat) : PlaybackSession :=
  preSaveHook now
    { id := freshId, userId := uid, contentId := cid, episodeId := eid
      progress := { currentTime := currentTime, duration := duration, percentage := 0 }
      completed := false, lastUpdated := now, sessionDuration := 0 }

/-- One reportProgress call on a session, as (now, currentTime, duration). -/
def reportStep (s : PlaybackSession) (call : Nat × ℚ × ℚ) : PlaybackSession :=
  updateExistingSession call.1 s call.2.1 call.2.2

/- Helper lemmas about the save hook and the update step. -/

theorem preSaveHook_completed_mono (now : Nat) (s : PlaybackSession)
    (h : s.completed = true) : (preSaveHook now s).completed = true := by
  unfold preSaveHook
  split
  · split
    · rfl
    · exact h
  · exact h

theorem updateExistingSession_completed_mono (now : Nat) (s : PlaybackSession)
    (ct dur : ℚ) (h : s.completed = true) :
    (updateExistingSession now s ct dur).completed = true := by
  unfold updateExistingSession
  exact preSaveHook_completed_mono _ _ h

theorem preSaveHook_sessionDuration (now : Nat) (s : PlaybackSession) :
    (preSaveHook now s).sessionDuration = s.sessionDuration := by
  unfold preSaveHook
  split
  · split <;> rfl
  · rfl

theorem preSaveHook_percentage (now : Nat) (s : PlaybackSession)
    (h : 0 < s.progress.duration) :
    (preSaveHook now s).progress.percentage =
      s.progress.currentTime / s.progress.duration * 100 := by
  unfold preSaveHook
  rw [if_pos h]
  split <;> rfl

/-- Claim C1 helper: folding any sequence of reports keeps completed true. -/
theorem foldl_reportStep_completed_mono (calls : List (Nat × ℚ × ℚ)) :
    ∀ s : PlaybackSession, s.completed = true →
      (calls.foldl reportStep s).completed = true := by
  induction calls with
  | nil => intro s h; simpa using h
  | cons c rest ih =>
    intro s h
    simpa using ih (reportStep s c)
      (updateExistingSession_completed_mono c.1 s c.2.1 c.2.2 h)

/-- C1: Monotonic completion — for every session and every sequence of
reportProgress (updateProgress) calls on it, once the session's completed
flag is true, no subsequent progress report (in particular none with a lower
percentage) ever sets completed back to false. -/
theorem updateProgress_completed_monotone (s : PlaybackSession)
    (calls : List (Nat × ℚ × ℚ)) (h : s.completed = true) :
    (calls.foldl reportStep s).completed = true :=
  foldl_reportStep_completed_mono calls s h

/-- A concrete completed session: currentTime 114 of duration 120 (95%). -/
def sessionAt95 : PlaybackSession :=
  { id := 1, userId := 1, contentId := 1, episodeId := none
    progress := { currentTime := 114, duration := 120, percentage := 95 }
    completed := true, lastUpdated := 0, sessionDuration := 0 }

/-- Witness for C1: a concrete completed session stays completed after a
report with a much lower position (currentTime 12 of 120). -/
theorem updateProgress_completed_monotone_witness :
    sessionAt95.completed = true ∧
      (([(1, 12, 120)] : List (Nat × ℚ × ℚ)).foldl reportStep sessionAt95).completed = true :=
  ⟨rfl, updateProgress_completed_monotone sessionAt95 [(1, 12, 120)] rfl⟩

/-- C2 (code bug): on an existing session, updateProgress adds exactly zero
to sessionDuration — the new currentTime is assigned to the session before
the delta is computed, so the delta is self-subtraction.  The claim (and the
schema comment calling sessionDuration the total watch time) says the
forward delta max(0, new - prior) should be added. -/
theorem updateProgress_sessionDuration_unchanged (now : Nat)
    (s : PlaybackSession) (ct dur : ℚ) :
    (updateExistingSession now s ct dur).sessionDuration = s.sessionDuration := by
  unfold updateExistingSession
  rw [preSaveHook_sessionDuration]
  unfold jsOrZero
  split <;> simp_all

/-- C5 counterexample: the claim says a completed session accepts no further
report that decreases its completionPercentage.  On a concrete completed
session at 95%, a report of currentTime 12 of 120 is accepted (the embedding
of updateProgress has no rejection path at all) and recomputes the
percentage down to 10, while completed stays true. -/
theorem completed_session_percentage_decreases :
    (updateExistingSession 1 sessionAt95 12 120).progress.percentage = 10 ∧
      (updateExistingSession 1 sessionAt95 12 120).progress.percentage
        < sessionAt95.progress.percentage ∧
      (updateExistingSession 1 sessionAt95 12 120).completed = true ∧
      (updateExistingSession 1 sessionAt95 12 120).progress.currentTime = 12 := by
  norm_num [updateExistingSession, preSaveHook, jsOrZero, sessionAt95]

/-- C5 amended: a completed session still accepts progress reports; the
completed flag remains true, but completionPercentage is recomputed from the
new reading (currentTime / duration * 100) and may therefore decrease. -/
theorem completed_session_accepts_reports (now : Nat) (s : PlaybackSession)
    (ct dur : ℚ) (h : s.completed = true) :
    (updateExistingSession now s ct dur).completed = true ∧
      (0 < dur →
        (updateExistingSession now s ct dur).progress.percentage = ct / dur * 100) := by
  refine ⟨updateExistingSession_completed_mono now s ct dur h, fun hdur => ?_⟩
  unfold updateExistingSession
  rw [preSaveHook_percentage]
  exact hdur

/-- Witness for C5's amended theorem at the concrete 95%-completed session. -/
theorem completed_session_accepts_reports_witness :
    sessionAt95.completed = true ∧
      ((updateExistingSession 1 sessionAt95 12 120).completed = true ∧
        (0 < (120 : ℚ) →
          (updateExistingSession 1 sessionAt95 12 120).progress.percentage
            = 12 / 120 * 100)) :=
  ⟨rfl, completed_session_accepts_reports 1 sessionAt95 12 120 rfl⟩

/-! ## Watch History Ledger -/

/-- A watchHistory array element of userSchema (User.model.js). -/
structure HistoryEntry where
  contentId : Nat
  watchedAt : Nat
  progress : ℚ
  completed : Bool
deriving Repr, DecidableEq

/-- The first findByIdAndUpdate in updateProgress:
$pull: { watchHistory: { contentId } } removes every entry for contentId. -/
def pullHistory (cid : Nat) (l : List HistoryEntry) : List HistoryEntry :=
  l.filter (fun e => decide (e.contentId ≠ cid))

/-- The second findByIdAndUpdate in updateProgress:
$push with $each [entry], $position 0, $slice 100 — prepend the fresh entry
and keep only the first 100 elements. -/
def pushHistoryHead (e : HistoryEntry) (l : List HistoryEntry) : List HistoryEntry :=
  (e :: l).take 100

/-- The ledger upsert performed by every updateProgress call: pull any entry
for contentId, then push a fresh snapshot at the head, capped at 100. -/
def upsertHistory (cid now : Nat) (pct : ℚ) (cflag : Bool)
    (l : List HistoryEntry) : List HistoryEntry :=
  pushHistoryHead { contentId := cid, watchedAt := now, progress := pct, completed := cflag }
    (pullHistory cid l)

/-- Ledgers are deduplicated: pairwise distinct contentIds. -/
def LedgerDedup (l : List HistoryEntry) : Prop :=
  l.Pairwise (fun a b => a.contentId ≠ b.contentId)

theorem mem_pullHistory {cid : Nat} {l : List HistoryEntry} {e : HistoryEntry}
    (h : e ∈ pullHistory cid l) : e ∈ l ∧ e.contentId ≠ cid := by
  have h2 := List.mem_filter.mp h
  exact ⟨h2.1, by simpa using h2.2⟩

theorem mem_upsertHistory {cid now : Nat} {pct : ℚ} {cflag : Bool}
    {l : List HistoryEntry} {e : HistoryEntry}
    (h : e ∈ upsertHistory cid now pct cflag l) :
    e = { contentId := cid, watchedAt := now, progress := pct, completed := cflag } ∨ e ∈ l := by
  unfold upsertHistory pushHistoryHead at h
  have h2 := (List.take_sublist _ _).mem h
  rcases List.mem_cons.mp h2 with h3 | h3
  · exact Or.inl h3
  · exact Or.inr (mem_pullHistory h3).1

theorem length_pullHistory_add (cid : Nat) (l : List HistoryEntry) :
    (pullHistory cid l).length + l.countP (fun e => decide (e.contentId = cid))
      = l.length := by
  induction l with
  | nil => rfl
  | cons a t ih =>
    unfold pullHistory at ih ⊢
    rw [List.filter_cons, List.countP_cons]
    by_cases h : a.contentId = cid
    · rw [if_neg (by simp [h]), if_pos (by simp [h])]
      simp only [List.length_cons]
      omega
    · rw [if_pos (by simp [h]), if_neg (by simp [h])]
      simp only [List.length_cons]
      omega

theorem countP_key_le_one {l : List HistoryEntry} (hded : LedgerDedup l) (cid : Nat) :
    l.countP (fun e => decide (e.contentId = cid)) ≤ 1 := by
  induction l with
  | nil => simp
  | cons a t ih =>
    obtain ⟨h1, h2⟩ := List.pairwise_cons.mp hded
    by_cases h : a.contentId = cid
    · have hz : t.countP (fun e => decide (e.contentId = cid)) = 0 := by
        rw [List.countP_eq_zero]
        intro e he
        simp only [decide_eq_true_eq]
        intro hec
        exact h1 e he (h.trans hec.symm)
      simp [List.countP_cons, h, hz]
    · simp only [List.countP_cons, h]
      simpa using ih h2

theorem upsertHistory_length_fresh (cid now : Nat) (pct : ℚ) (cflag : Bool)
    (l : List HistoryEntry) (h : ∀ e ∈ l, e.contentId ≠ cid) :
    (upsertHistory cid now pct cflag l).length = min (l.length + 1) 100 := by
  have hpull : pullHistory cid l = l := by
    apply List.filter_eq_self.mpr
    intro e he
    simpa using h e he
  unfold upsertHistory pushHistoryHead
  rw [hpull]
  simp only [List.length_take, List.length_cons]
  omega

theorem upsertHistory_length_rewatch (cid now : Nat) (pct : ℚ) (cflag : Bool)
    {l : List HistoryEntry} (hded : LedgerDedup l)
    (hmem : ∃ e ∈ l, e.contentId = cid) (hlen : l.length ≤ 100) :
    (upsertHistory cid now pct cflag l).length = l.length := by
  have hpos : 0 < l.countP (fun e => decide (e.contentId = cid)) := by
    rw [List.countP_pos_iff]
    obtain ⟨e, he, hec⟩ := hmem
    exact ⟨e, he, by simpa using hec⟩
  have hone := countP_key_le_one hded cid
  have hadd := length_pullHistory_add cid l
  unfold upsertHistory pushHistoryHead
  simp only [List.length_take, List.length_cons]
  omega

theorem upsertHistory_dedup (cid now : Nat) (pct : ℚ) (cflag : Bool)
    {l : List HistoryEntry} (hded : LedgerDedup l) :
    LedgerDedup (upsertHistory cid now pct cflag l) := by
  unfold upsertHistory pushHistoryHead LedgerDedup
  apply List.Pairwise.sublist (List.take_sublist _ _)
  rw [List.pairwise_cons]
  constructor
  · intro e he
    exact fun hc => (mem_pullHistory he).2 hc.symm
  · exact List.Pairwise.filter _ hded

theorem foldl_upsert_fresh_length (now : Nat) (pct : ℚ) (cflag : Bool) :
    ∀ (ops : List Nat) (acc : List HistoryEntry), ops.Nodup →
      (∀ e ∈ acc, e.contentId ∉ ops) → acc.length ≤ 100 →
      (ops.foldl (fun a c => upsertHistory c now pct cflag a) acc).length
        = min (acc.length + ops.length) 100 := by
  intro ops
  induction ops with
  | nil =>
    intro acc _ _ hle
    simp only [List.foldl_nil, List.length_nil, Nat.add_zero]
    omega
  | cons c rest ih =>
    intro acc hnd hfresh hle
    rw [List.foldl_cons]
    have hrest := (List.nodup_cons.mp hnd).2
    have hcnot := (List.nodup_cons.mp hnd).1
    have hfc : ∀ e ∈ acc, e.contentId ≠ c := fun e he =>
      fun hc => hfresh e he (hc ▸ List.mem_cons_self c rest)
    have hlen2 := upsertHistory_length_fresh c now pct cflag acc hfc
    have hfresh2 : ∀ e ∈ upsertHistory c now pct cflag acc, e.contentId ∉ rest := by
      intro e he
      rcases mem_upsertHistory he with h | h
      · rw [h]; exact hcnot
      · intro hin; exact hfresh e h (List.mem_cons_of_mem c hin)
    have := ih (upsertHistory c now pct cflag acc) hrest hfresh2 (by omega)
    rw [this, hlen2]
    simp only [List.length_cons]
    omega

/-- The fresh snapshot entry produced by an upsert. -/
def freshEntry (cid now : Nat) (pct : ℚ) (cflag : Bool) : HistoryEntry :=
  { contentId := cid, watchedAt := now, progress := pct, completed := cflag }

/-- C3: Ledger upsert semantics.  Starting from a deduplicated ledger of at
most 100 entries, an upsert (a) keeps the ledger deduplicated, (b) keeps its
length at most 100, (c) puts the fresh entry at position 0, (d) leaves the
length unchanged when the contentId was already present (re-watch moves to
front), (e) grows the length to min(len+1, 100) when the contentId is fresh
(oldest tail entry evicted at the cap), and (f) after 101 or more
distinct-content upserts starting from an empty ledger the ledger holds
exactly 100 entries. -/
theorem upsertHistory_ledger_invariants (cid now : Nat) (pct : ℚ) (cflag : Bool)
    (l : List HistoryEntry) (hded : LedgerDedup l) (hlen : l.length ≤ 100) :
    LedgerDedup (upsertHistory cid now pct cflag l)
    ∧ (upsertHistory cid now pct cflag l).length ≤ 100
    ∧ (upsertHistory cid now pct cflag l).head? = some (freshEntry cid now pct cflag)
    ∧ ((∃ e ∈ l, e.contentId = cid) →
        (upsertHistory cid now pct cflag l).length = l.length)
    ∧ ((∀ e ∈ l, e.contentId ≠ cid) →
        (upsertHistory cid now pct cflag l).length = min (l.length + 1) 100)
    ∧ (∀ ops : List Nat, ops.Nodup → 101 ≤ ops.length →
        (ops.foldl (fun acc c => upsertHistory c now pct cflag acc) []).length = 100) := by
  refine ⟨upsertHistory_dedup cid now pct cflag hded, ?_, ?_, ?_, ?_, ?_⟩
  · unfold upsertHistory pushHistoryHead
    simp only [List.length_take, List.length_cons]
    omega
  · unfold upsertHistory pushHistoryHead freshEntry
    rw [show (100 : Nat) = 99 + 1 from rfl, List.take_succ_cons]
    rfl
  · intro hmem
    exact upsertHistory_length_rewatch cid now pct cflag hded hmem hlen
  · intro hfresh
    exact upsertHistory_length_fresh cid now pct cflag l hfresh
  · intro ops hnd hops
    rw [foldl_upsert_fresh_length now pct cflag ops [] hnd (by simp) (by simp)]
    simp only [List.length_nil, Nat.zero_add]
    omega

/-- Witness for C3 at a concrete one-entry ledger re-watched for content 5. -/
theorem upsertHistory_ledger_invariants_witness :
    (LedgerDedup [freshEntry 5 0 20 false] ∧ [freshEntry 5 0 20 false].length ≤ 100) ∧
      (upsertHistory 5 2 50 false [freshEntry 5 0 20 false]).head?
        = some (freshEntry 5 2 50 false) ∧
      (upsertHistory 5 2 50 false [freshEntry 5 0 20 false]).length
        = [freshEntry 5 0 20 false].length := by
  have h := upsertHistory_ledger_invariants 5 2 50 false [freshEntry 5 0 20 false]
    (by unfold LedgerDedup; simp) (by simp)
  exact ⟨⟨by unfold LedgerDedup; simp, by simp⟩, h.2.2.1,
    h.2.2.2.1 ⟨freshEntry 5 0 20 false, by simp, rfl⟩⟩

/-! ## markCompleted (playback.controller.js) -/

/-- The arrayFilters update in markCompleted:
$set watchHistory.$[elem].completed = true and .progress = 100 for every
element with elem.contentId = contentId. -/
def markCompletedEntry (cid : Nat) (e : HistoryEntry) : HistoryEntry :=
  if e.contentId = cid then { e with completed := true, progress := 100 } else e

/-- markCompleted's effect on the viewer's watchHistory array. -/
def markCompletedHistory (cid : Nat) (l : List HistoryEntry) : List HistoryEntry :=
  l.map (markCompletedEntry cid)

/-- C10: markCompleted never inserts a watch-history entry.  Its ledger
update (a) preserves the ledger length, (b) leaves the ledger entirely
unchanged when no entry for contentId is present, (c) leaves every entry for
a different contentId unchanged and in place, (d) sets completed = true and
progress = 100 on every entry for contentId, and (e) introduces no
contentId that was not already present. -/
theorem markCompleted_history_frame (cid : Nat) (l : List HistoryEntry) :
    (markCompletedHistory cid l).length = l.length
    ∧ ((∀ e ∈ l, e.contentId ≠ cid) → markCompletedHistory cid l = l)
    ∧ ((markCompletedHistory cid l).filter (fun e => !(decide (e.contentId = cid)))
        = l.filter (fun e => !(decide (e.contentId = cid))))
    ∧ (∀ e ∈ markCompletedHistory cid l, e.contentId = cid →
        e.completed = true ∧ e.progress = 100)
    ∧ (∀ e ∈ markCompletedHistory cid l, ∃ e0 ∈ l, e.contentId = e0.contentId) := by
  refine ⟨by simp [markCompletedHistory], ?_, ?_, ?_, ?_⟩
  · intro h
    unfold markCompletedHistory
    have : ∀ e ∈ l, markCompletedEntry cid e = e := by
      intro e he
      unfold markCompletedEntry
      rw [if_neg (h e he)]
    rw [List.map_congr_left this]
    exact List.map_id l
  · induction l with
    | nil => rfl
    | cons a t ih =>
      unfold markCompletedHistory at ih ⊢
      rw [List.map_cons, List.filter_cons, List.filter_cons]
      by_cases h : a.contentId = cid
      · have ha : markCompletedEntry cid a
            = { a with completed := true, progress := 100 } := by
          unfold markCompletedEntry; rw [if_pos h]
        rw [ha]
        rw [if_neg (by simp [h]), if_neg (by simp [h])]
        exact ih
      · have ha : markCompletedEntry cid a = a := by
          unfold markCompletedEntry; rw [if_neg h]
        rw [ha]
        rw [if_pos (by simp [h]), if_pos (by simp [h])]
        rw [ih]
  · intro e he hec
    obtain ⟨e0, he0, heq⟩ := List.mem_map.mp he
    unfold markCompletedEntry at heq
    by_cases h : e0.contentId = cid
    · rw [if_pos h] at heq
      rw [← heq]
      exact ⟨rfl, rfl⟩
    · rw [if_neg h] at heq
      rw [← heq] at hec
      exact absurd hec h
  · intro e he
    obtain ⟨e0, he0, heq⟩ := List.mem_map.mp he
    refine ⟨e0, he0, ?_⟩
    unfold markCompletedEntry at heq
    split at heq <;> rw [← heq]

/-- Witness for C10 at a ledger with one matching and one other entry. -/
theorem markCompleted_history_frame_witness :
    (markCompletedHistory 7 [freshEntry 7 0 20 false, freshEntry 8 1 30 false]).length
        = [freshEntry 7 0 20 false, freshEntry 8 1 30 false].length
    ∧ (markCompletedHistory 7 [freshEntry 8 1 30 false]) = [freshEntry 8 1 30 false] := by
  refine ⟨(markCompleted_history_frame 7
    [freshEntry 7 0 20 false, freshEntry 8 1 30 false]).1, ?_⟩
  exact (markCompleted_history_frame 7 [freshEntry 8 1 30 false]).2.1
    (by intro e he; simp [freshEntry] at he; rw [he]; simp [freshEntry])

/-! ## Stable descending sort

Model of a mongo .sort({key: -1}) and of JavaScript Array.prototype.sort
with a descending comparator (stable per the ECMAScript spec): a stable
insertion sort that places an earlier element before any later element whose
key is not strictly greater. -/

def insertDescBy {α β : Type} [LinearOrder β] (key : α → β) (x : α) :
    List α → List α
  | [] => [x]
  | y :: ys => if key y ≤ key x then x :: y :: ys else y :: insertDescBy key x ys

def sortDescBy {α β : Type} [LinearOrder β] (key : α → β) : List α → List α
  | [] => []
  | x :: xs => insertDescBy key x (sortDescBy key xs)

theorem length_insertDescBy {α β : Type} [LinearOrder β] (key : α → β) (x : α)
    (l : List α) : (insertDescBy key x l).length = l.length + 1 := by
  induction l with
  | nil => rfl
  | cons y ys ih =>
    rw [insertDescBy]
    split
    · rfl
    · simp only [List.length_cons, ih]

theorem length_sortDescBy {α β : Type} [LinearOrder β] (key : α → β)
    (l : List α) : (sortDescBy key l).length = l.length := by
  induction l with
  | nil => rfl
  | cons x xs ih =>
    rw [sortDescBy, length_insertDescBy, ih, List.length_cons]

theorem mem_insertDescBy {α β : Type} [LinearOrder β] {key : α → β} {x a : α}
    {l : List α} : a ∈ insertDescBy key x l ↔ a = x ∨ a ∈ l := by
  induction l with
  | nil => simp [insertDescBy]
  | cons y ys ih =>
    rw [insertDescBy]
    split
    · simp
    · simp only [List.mem_cons, ih]
      tauto

theorem mem_sortDescBy {α β : Type} [LinearOrder β] {key : α → β} {a : α}
    {l : List α} : a ∈ sortDescBy key l ↔ a ∈ l := by
  induction l with
  | nil => simp [sortDescBy]
  | cons x xs ih =>
    rw [sortDescBy]
    simp only [mem_insertDescBy, List.mem_cons, ih]

theorem insertDescBy_sorted {α β : Type} [LinearOrder β] (key : α → β) (x : α)
    {l : List α} (h : l.Pairwise (fun a b => key b ≤ key a)) :
    (insertDescBy key x l).Pairwise (fun a b => key b ≤ key a) := by
  induction l with
  | nil => simp [insertDescBy]
  | cons y ys ih =>
    obtain ⟨hy, hys⟩ := List.pairwise_cons.mp h
    rw [insertDescBy]
    split
    · rw [List.pairwise_cons]
      refine ⟨?_, h⟩
      intro z hz
      rcases List.mem_cons.mp hz with rfl | hz2
      · assumption
      · exact le_trans (hy z hz2) (by assumption)
    · rw [List.pairwise_cons]
      refine ⟨?_, ih hys⟩
      intro z hz
      rcases mem_insertDescBy.mp hz with rfl | hz2
      · exact le_of_not_le (by assumption)
      · exact hy z hz2

theorem sortDescBy_sorted {α β : Type} [LinearOrder β] (key : α → β)
    (l : List α) : (sortDescBy key l).Pairwise (fun a b => key b ≤ key a) := by
  induction l with
  | nil => simp [sortDescBy]
  | cons x xs ih =>
    rw [sortDescBy]
    exact insertDescBy_sorted key x ih

theorem filter_insertDescBy_eq {α β : Type} [LinearOrder β] (key : α → β)
    (x : α) (l : List α) (v : β) :
    (insertDescBy key x l).filter (fun a => decide (key a = v))
      = if key x = v then x :: l.filter (fun a => decide (key a = v))
        else l.filter (fun a => decide (key a = v)) := by
  induction l with
  | nil =>
    rw [insertDescBy]
    by_cases h : key x = v
    · have hd : decide (key x = v) = true := by simp [h]
      rw [if_pos h, List.filter_cons, if_pos hd]
    · have hd : ¬ decide (key x = v) = true := by simp [h]
      rw [if_neg h, List.filter_cons, if_neg hd]
  | cons y ys ih =>
    rw [insertDescBy]
    by_cases hc : key y ≤ key x
    · rw [if_pos hc]
      by_cases h : key x = v
      · have hd : decide (key x = v) = true := by simp [h]
        rw [if_pos h, List.filter_cons, if_pos hd]
      · have hd : ¬ decide (key x = v) = true := by simp [h]
        rw [if_neg h, List.filter_cons, if_neg hd]
    · rw [if_neg hc]
      have hlt : key x < key y := lt_of_not_le hc
      rw [List.filter_cons]
      by_cases hy : key y = v
      · have hyd : decide (key y = v) = true := by simp [hy]
        have hx : ¬ key x = v := by
          intro hxv
          rw [hxv, hy] at hlt
          exact lt_irrefl v hlt
        rw [if_pos hyd, ih, if_neg hx, if_neg hx, List.filter_cons, if_pos hyd]
      · have hyd : ¬ decide (key y = v) = true := by simp [hy]
        rw [if_neg hyd, ih, List.filter_cons, if_neg hyd]

/-- Stability of the sort on equal keys: the subsequence of elements whose
key equals any fixed value is exactly the one of the input, in input order
(first-encountered order preserved under ties). -/
theorem filter_sortDescBy_eq {α β : Type} [LinearOrder β] (key : α → β)
    (l : List α) (v : β) :
    (sortDescBy key l).filter (fun a => decide (key a = v))
      = l.filter (fun a => decide (key a = v)) := by
  induction l with
  | nil => rfl
  | cons x xs ih =>
    rw [sortDescBy, filter_insertDescBy_eq, List.filter_cons]
    by_cases h : key x = v
    · rw [if_pos h, if_pos (by simp [h]), ih]
    · rw [if_neg h, if_neg (by simp [h]), ih]

/-! ## getContinueWatching (playback.controller.js) -/

/-- The mongo query of getContinueWatching:
{ userId, completed: false, 'progress.percentage': { $gt: 5, $lt: 90 } }. -/
def continueWatchingQuery (uid : Nat) (s : PlaybackSession) : Bool :=
  s.userId == uid && s.completed == false &&
    decide (5 < s.progress.percentage) && decide (s.progress.percentage < 90)

/-- getContinueWatching: find by the query, sort lastUpdated descending,
limit 20 — the limit is the hard-coded constant 20; the request supplies no
limit parameter and none is read. -/
def getContinueWatching (sessions : List PlaybackSession) (uid : Nat) :
    List PlaybackSession :=
  (sortDescBy (fun s => s.lastUpdated)
    (sessions.filter (continueWatchingQuery uid))).take 20

/-- Modelled from the claim wording for comparison: the same view capped at
a caller-supplied limit instead of the constant 20. -/
def getContinueWatchingClaimed (sessions : List PlaybackSession)
    (uid limit : Nat) : List PlaybackSession :=
  (sortDescBy (fun s => s.lastUpdated)
    (sessions.filter (continueWatchingQuery uid))).take limit

/-- A qualifying open session at 50% for the continue-watching examples. -/
def cwSession (i : Nat) : PlaybackSession :=
  { id := i, userId := 1, contentId := i, episodeId := none
    progress := { currentTime := 60, duration := 120, percentage := 50 }
    completed := false, lastUpdated := i, sessionDuration := 0 }

/-- Six qualifying sessions for one viewer. -/
def cwSessions : List PlaybackSession :=
  [cwSession 0, cwSession 1, cwSession 2, cwSession 3, cwSession 4, cwSession 5]

/-- C8 counterexample: getContinueWatching ignores any caller-supplied
limit.  With six qualifying sessions and a requested limit of 5, the code
returns all six sessions, not five: the sequence is not capped at the
caller-supplied limit. -/
theorem getContinueWatching_ignores_caller_limit :
    (getContinueWatching cwSessions 1).length = 6
    ∧ (getContinueWatchingClaimed cwSessions 1 5).length = 5
    ∧ getContinueWatching cwSessions 1 ≠ getContinueWatchingClaimed cwSessions 1 5 := by
  decide

/-- C8 amended: getContinueWatching returns exactly the open (not completed)
sessions of the viewer with completionPercentage strictly between 5 and 90,
ordered most-recently-updated first, capped at the fixed constant 20
(independent of any caller-supplied limit): (a) at most 20 results, (b)
every result is a qualifying session of the viewer, (c) results are ordered
by lastUpdated descending, and (d) when at most 20 sessions qualify, every
qualifying session is returned. -/
theorem getContinueWatching_spec (sessions : List PlaybackSession) (uid : Nat) :
    (getContinueWatching sessions uid).length ≤ 20
    ∧ (∀ s ∈ getContinueWatching sessions uid,
        s ∈ sessions ∧ s.userId = uid ∧ s.completed = false ∧
          5 < s.progress.percentage ∧ s.progress.percentage < 90)
    ∧ (getContinueWatching sessions uid).Pairwise
        (fun a b => b.lastUpdated ≤ a.lastUpdated)
    ∧ ((sessions.filter (continueWatchingQuery uid)).length ≤ 20 →
        ∀ s ∈ sessions, continueWatchingQuery uid s = true →
          s ∈ getContinueWatching sessions uid) := by
  refine ⟨?_, ?_, ?_, ?_⟩
  · unfold getContinueWatching
    simp only [List.length_take]
    omega
  · intro s hs
    unfold getContinueWatching at hs
    have h2 := mem_sortDescBy.mp ((List.take_sublist _ _).mem hs)
    have h3 := List.mem_filter.mp h2
    have h4 := h3.2
    unfold continueWatchingQuery at h4
    simp only [Bool.and_eq_true, beq_iff_eq, decide_eq_true_eq] at h4
    exact ⟨h3.1, h4.1.1.1, h4.1.1.2, h4.1.2, h4.2⟩
  · unfold getContinueWatching
    exact List.Pairwise.sublist (List.take_sublist _ _)
      (sortDescBy_sorted (fun s : PlaybackSession => s.lastUpdated) _)
  · intro hle s hs hq
    unfold getContinueWatching
    rw [List.take_of_length_le (by rw [length_sortDescBy]; exact hle)]
    exact mem_sortDescBy.mpr (List.mem_filter.mpr ⟨hs, hq⟩)

/-- Witness for C8's amended theorem at the six concrete sessions, with the
completeness conjunct instantiated at session 0 and its premises decided. -/
theorem getContinueWatching_spec_witness :
    ((cwSessions.filter (continueWatchingQuery 1)).length ≤ 20
      ∧ cwSession 0 ∈ cwSessions
      ∧ continueWatchingQuery 1 (cwSession 0) = true)
    ∧ (getContinueWatching cwSessions 1).length ≤ 20
    ∧ cwSession 0 ∈ getContinueWatching cwSessions 1 :=
  ⟨⟨by decide, by decide, by decide⟩,
    (getContinueWatching_spec cwSessions 1).1,
    (getContinueWatching_spec cwSessions 1).2.2.2 (by decide) (cwSession 0)
      (by decide) (by decide)⟩

/-! ## The full updateProgress request handler (playback.controller.js)

The /progress route (playback.routes.js) applies only the authenticate
middleware: the playbackProgressValidation chain is imported by the routes
file but not attached to the route, and that chain only checks that
contentId is a mongo id and that currentTime and duration are numeric in
any case.  The handler therefore has no rejection path for out-of-range
progress values, which the embedding reflects by being a total function. -/

/-- The session collection and one viewer's watchHistory ledger. -/
structure Store where
  sessions : List PlaybackSession
  history : List HistoryEntry
deriving Repr, DecidableEq

/-- Session lookup in updateProgress: findById when a sessionId is given,
else findOne by { userId, contentId, episodeId: episodeId || null }. -/
def findSession (st : Store) (sessionId : Option Nat) (uid cid : Nat)
    (eid : Option String) : Option PlaybackSession :=
  match sessionId with
  | some sid => st.sessions.find? (fun s => s.id == sid)
  | none => st.sessions.find?
      (fun s => s.userId == uid && s.contentId == cid && s.episodeId == eid)

/-- updateProgress: find (or create) the session, apply the update and the
save hook, then pull and push the viewer's watchHistory snapshot.  Returns
the new store plus the response payload (progress, completed). -/
def updateProgressHandler (st : Store) (sessionId : Option Nat) (uid cid : Nat)
    (eid : Option String) (currentTime duration : ℚ) (now freshId : Nat) :
    Store × Progress × Bool :=
  match findSession st sessionId uid cid eid with
  | some s =>
      let s2 := updateExistingSession now s currentTime duration
      ({ sessions := st.sessions.map (fun t => if t.id == s2.id then s2 else t)
         history := upsertHistory cid now s2.progress.percentage s2.completed st.history },
       s2.progress, s2.completed)
  | none =>
      let s2 := createSession freshId uid cid eid currentTime duration now
      ({ sessions := st.sessions ++ [s2]
         history := upsertHistory cid now s2.progress.percentage s2.completed st.history },
       s2.progress, s2.completed)

/-- An open session at 25% used as the pre-state for the C4 example. -/
def staleSession : PlaybackSession :=
  { id := 1, userId := 1, contentId := 1, episodeId := none
    progress := { currentTime := 30, duration := 120, percentage := 25 }
    completed := false, lastUpdated := 0, sessionDuration := 0 }

/-- C4 (code bug): a progress report with negative currentTime (-5) and
duration 0 — invalid on all three counts of the claim — is not rejected:
the handler accepts it, overwrites the session's currentTime with -5 and its
duration with 0, and prepends a fresh ledger entry, mutating both the
session store and the ledger.  No InvalidProgress rejection exists on this
path. -/
theorem invalidProgress_not_rejected :
    (updateProgressHandler ⟨[staleSession], []⟩ none 1 1 none (-5) 0 9 99).1.history
        = [freshEntry 1 9 25 false]
    ∧ ((updateProgressHandler ⟨[staleSession], []⟩ none 1 1 none (-5) 0 9 99).1.sessions.map
          (fun s => s.progress.currentTime)) = [-5]
    ∧ ((updateProgressHandler ⟨[staleSession], []⟩ none 1 1 none (-5) 0 9 99).1.sessions.map
          (fun s => s.progress.duration)) = [0]
    ∧ staleSession.progress.currentTime = 30 := by
  decide

/-! ## startPlayback (playback.controller.js) -/

/-- The catalog fields consumed by this core (Content.model.js).  Fields not
referenced by any verified claim (title, thumbnail, seasons, cast, director,
videoUrl, subtitles) are omitted. -/
structure Content where
  id : Nat
  ctype : String
  genres : List String
  status : String
  views : Nat
  imdbRating : ℚ
  createdAt : Nat
  subscriptionRequired : Plan
deriving Repr, DecidableEq

/-- Error kinds surfaced by the playback/recommendation handlers. -/
inductive ApiError where
  | ContentNotFound
  | AccessDenied
deriving Repr, DecidableEq

/-- The success payload of startPlayback that the claims reference:
sessionId and resumeFrom (= session.progress.currentTime).  The playable
resource reference (videoUrl, subtitles, quality) is output plumbing
orthogonal to the verified claims and is reached only on this success
path. -/
structure StartPayload where
  sessionId : Nat
  resumeFrom : ℚ
deriving Repr, DecidableEq

/-- startPlayback: resolve the content (404 ContentNotFound if absent),
check the plan hierarchy (403 AccessDenied when the viewer's plan index is
below the required plan index), then find an open session for the identity
triple or create one with currentTime 0.  Returns the response and the
(possibly updated) session store. -/
def startPlayback (catalog : List Content) (st : Store) (userPlan : Plan)
    (uid cid : Nat) (eid : Option String) (duration : ℚ) (now freshId : Nat) :
    Except ApiError StartPayload × Store :=
  match catalog.find? (fun c => c.id == cid) with
  | none => (.error .ContentNotFound, st)
  | some content =>
      if planIndex userPlan < planIndex content.subscriptionRequired then
        (.error .AccessDenied, st)
      else
        match st.sessions.find?
            (fun s => s.userId == uid && s.contentId == cid &&
              s.episodeId == eid && s.completed == false) with
        | some s => (.ok ⟨s.id, s.progress.currentTime⟩, st)
        | none =>
            let s2 := createSession freshId uid cid eid 0 duration now
            (.ok ⟨s2.id, s2.progress.currentTime⟩,
              { st with sessions := st.sessions ++ [s2] })

/-- C9: Access gating — when the content resolves but requires a tier above
the viewer's subscription tier, startPlayback fails with AccessDenied and
returns the store unchanged: no session record is created and no payload
(playable resource reference) is produced. -/
theorem startPlayback_access_denied (catalog : List Content) (st : Store)
    (userPlan : Plan) (uid cid : Nat) (eid : Option String) (duration : ℚ)
    (now freshId : Nat) (c : Content)
    (hres : catalog.find? (fun c2 => c2.id == cid) = some c)
    (htier : planIndex userPlan < planIndex c.subscriptionRequired) :
    startPlayback catalog st userPlan uid cid eid duration now freshId
      = (.error .AccessDenied, st) := by
  unfold startPlayback
  rw [hres]
  exact if_pos htier

/-- A premium-only catalog item for the C9 witness. -/
def premiumContent : Content :=
  { id := 1, ctype := "movie", genres := ["Drama"], status := "published"
    views := 0, imdbRating := 8, createdAt := 0, subscriptionRequired := .premium }

/-- Witness for C9: a free-tier viewer requesting the premium content gets
AccessDenied and the empty session store is left unchanged. -/
theorem startPlayback_access_denied_witness :
    ([premiumContent].find? (fun c2 => c2.id == 1) = some premiumContent
      ∧ planIndex .free < planIndex premiumContent.subscriptionRequired)
    ∧ startPlayback [premiumContent] ⟨[], []⟩ .free 1 1 none 120 0 99
        = (.error .AccessDenied, ⟨[], []⟩) :=
  ⟨⟨by decide, by decide⟩,
    startPlayback_access_denied [premiumContent] ⟨[], []⟩ .free 1 1 none 120 0 99
      premiumContent (by decide) (by decide)⟩

/-! ## Recommendation scorer (recommendation.controller.js)

getPersonalizedRecommendations, embedded step by step.  The final
recommendations.sort(() => Math.random() - 0.5) shuffle is an explicit
nondeterministic permutation for presentation variety; it is modelled as the
identity permutation, and the verified properties (result length, reported
topGenres) are invariant under every permutation of the result list.  The
dead local typePreference, computed by the source but never read, is not
modelled. -/

/-- Catalog resolution (mongoose populate / Content.findById): a populated
reference is null when the content no longer resolves. -/
def resolveContent (catalog : List Content) (cid : Nat) : Option Content :=
  catalog.find? (fun c => c.id == cid)

/-- genreScores[genre] = (genreScores[genre] || 0) + weight on a JS object
with string keys: update the existing key in place (insertion order kept),
or append a new key at the end. -/
def bumpGenre (g : String) (w : ℚ) (m : List (String × ℚ)) : List (String × ℚ) :=
  if m.any (fun p => p.1 == g) then
    m.map (fun p => if p.1 == g then (p.1, p.2 + w) else p)
  else m ++ [(g, w)]

/-- item.contentId.genres.forEach(genre => bump genre by weight). -/
def bumpGenres (genres : List String) (w : ℚ) (m : List (String × ℚ)) :
    List (String × ℚ) :=
  genres.foldl (fun acc g => bumpGenre g w acc) m

/-- Math.max(1, 10 - index * 0.5): recent watches weighted more. -/
def historyWeight (i : Nat) : ℚ := max 1 (10 - (i : ℚ) * (1 / 2))

/-- user.watchHistory.forEach((item, index) => ...): entries whose populated
content is null are skipped, but the forEach index still advances. -/
def scoreHistoryAux (catalog : List Content) :
    Nat → List (String × ℚ) → List HistoryEntry → List (String × ℚ)
  | _, m, [] => m
  | i, m, e :: rest =>
      scoreHistoryAux catalog (i + 1)
        (match resolveContent catalog e.contentId with
         | none => m
         | some c => bumpGenres c.genres (historyWeight i) m) rest

/-- user.watchlist.forEach(item => ...): flat weight 2 per genre; null
populated items are skipped. -/
def scoreWatchlist (catalog : List Content) (watchlist : List Nat)
    (m : List (String × ℚ)) : List (String × ℚ) :=
  watchlist.foldl (fun acc cid =>
    match resolveContent catalog cid with
    | none => acc
    | some c => bumpGenres c.genres 2 acc) m

/-- The genre→score mapping after both passes, as the assoc list a JS object
with string keys is (insertion-ordered). -/
def genreScoresOf (catalog : List Content) (history : List HistoryEntry)
    (watchlist : List Nat) : List (String × ℚ) :=
  scoreWatchlist catalog watchlist (scoreHistoryAux catalog 0 [] history)

/-- Object.entries(genreScores).sort((a, b) => b[1] - a[1]).slice(0, 5)
.map(([genre]) => genre): top 5 genres by score, stable sort. -/
def topGenresOf (catalog : List Content) (history : List HistoryEntry)
    (watchlist : List Nat) : List String :=
  ((sortDescBy (fun p : String × ℚ => p.2)
    (genreScoresOf catalog history watchlist)).take 5).map (fun p => p.1)

/-- watchedIds = user.watchHistory.filter(h => h.completed).map(h => h.contentId). -/
def watchedIdsOf (history : List HistoryEntry) : List Nat :=
  (history.filter (fun e => e.completed)).map (fun e => e.contentId)

/-- The primary query: published content with a genre among topGenres and
not already watched to completion, sorted views desc then imdbRating desc,
capped at limit; skipped entirely when topGenres is empty. -/
def primaryRecs (catalog : List Content) (history : List HistoryEntry)
    (watchlist : List Nat) (limit : Nat) : List Content :=
  if 0 < (topGenresOf catalog history watchlist).length then
    (sortDescBy (fun c : Content => toLex (c.views, c.imdbRating))
      (catalog.filter (fun c =>
        c.genres.any (fun g => (topGenresOf catalog history watchlist).contains g) &&
        !((watchedIdsOf history).contains c.id) &&
        c.status == "published"))).take limit
  else []

/-- The $nin id set of the fill query: watchedIds plus the ids already in
the primary result. -/
def fillExclusions (history : List HistoryEntry) (primary : List Content) :
    List Nat :=
  watchedIdsOf history ++ primary.map (fun r => r.id)

/-- getPersonalizedRecommendations: primary genre-based picks, topped up
with trending published content (views desc, createdAt desc) when fewer
than limit, returned with meta.basedOn = topGenres.slice(0, 3). -/
def personalizedRecommendations (catalog : List Content)
    (history : List HistoryEntry) (watchlist : List Nat) (limit : Nat) :
    List Content × List String :=
  (if (primaryRecs catalog history watchlist limit).length < limit then
      primaryRecs catalog history watchlist limit ++
        (sortDescBy (fun c : Content => toLex (c.views, c.createdAt))
          (catalog.filter (fun c =>
            !((fillExclusions history
                (primaryRecs catalog history watchlist limit)).contains c.id) &&
            c.status == "published"))).take
          (limit - (primaryRecs catalog history watchlist limit).length)
    else primaryRecs catalog history watchlist limit,
   (topGenresOf catalog history watchlist).take 3)

/-- getSimilarContent: resolve the pivot (404 ContentNotFound when absent),
then published content of the same type with genre overlap, excluding the
pivot, sorted imdbRating desc then views desc, capped at limit. -/
def similarContent (catalog : List Content) (pivotId : Nat) (limit : Nat) :
    Except ApiError (List Content) :=
  match catalog.find? (fun c => c.id == pivotId) with
  | none => .error .ContentNotFound
  | some content =>
      .ok ((sortDescBy (fun c : Content => toLex (c.imdbRating, c.views))
        (catalog.filter (fun c =>
          c.id != pivotId && c.ctype == content.ctype &&
          c.genres.any (fun g => content.genres.contains g) &&
          c.status == "published"))).take limit)

/-- C6: Scorer failure semantics and fallback.  (a) similarContent fails
with ContentNotFound exactly when the pivot content id does not resolve,
(b) ContentNotFound is the only error any of its runs can produce, and
(c) a viewer with empty history and empty watchlist asking for 10
personalized recommendations receives exactly 10 items whenever at least 10
published catalog items exist, with topGenres reported as empty — sparse
data never fails the call. -/
theorem scorer_failure_and_fallback :
    (∀ (catalog : List Content) (pivotId limit : Nat),
        similarContent catalog pivotId limit = .error .ContentNotFound
          ↔ catalog.find? (fun c => c.id == pivotId) = none)
    ∧ (∀ (catalog : List Content) (pivotId limit : Nat) (e : ApiError),
        similarContent catalog pivotId limit = .error e → e = .ContentNotFound)
    ∧ (∀ catalog : List Content,
        10 ≤ (catalog.filter (fun c => c.status == "published")).length →
          (personalizedRecommendations catalog [] [] 10).1.length = 10
            ∧ (personalizedRecommendations catalog [] [] 10).2 = []) := by
  refine ⟨?_, ?_, ?_⟩
  · intro catalog pivotId limit
    unfold similarContent
    cases hres : catalog.find? (fun c => c.id == pivotId) with
    | none => simp
    | some c => simp
  · intro catalog pivotId limit e
    unfold similarContent
    cases hres : catalog.find? (fun c => c.id == pivotId) with
    | none => intro h; cases h; rfl
    | some c => intro h; cases h
  · intro catalog hlen
    have hprim : primaryRecs catalog [] [] 10 = [] := rfl
    have hq : catalog.filter (fun c =>
          !((fillExclusions [] ([] : List Content)).contains c.id) &&
          c.status == "published")
        = catalog.filter (fun c => c.status == "published") := by
      apply List.filter_congr
      intro c _
      simp [fillExclusions, watchedIdsOf]
    constructor
    · show (personalizedRecommendations catalog [] [] 10).1.length = 10
      unfold personalizedRecommendations
      rw [hprim]
      rw [if_pos (by simp : ([] : List Content).length < 10)]
      rw [List.nil_append, hq, List.length_take, length_sortDescBy]
      simp only [List.length_nil, Nat.sub_zero]
      omega
    · rfl

/-- A published catalog item with no genres for the fallback witness. -/
def plainContent (i : Nat) : Content :=
  { id := i, ctype := "movie", genres := [], status := "published"
    views := i, imdbRating := 5, createdAt := i, subscriptionRequired := .free }

/-- Ten published catalog items. -/
def fallbackCatalog : List Content :=
  [plainContent 1, plainContent 2, plainContent 3, plainContent 4, plainContent 5,
   plainContent 6, plainContent 7, plainContent 8, plainContent 9, plainContent 10]

/-- Witness for C6 at a concrete catalog of ten published items. -/
theorem scorer_failure_and_fallback_witness :
    10 ≤ (fallbackCatalog.filter (fun c => c.status == "published")).length
    ∧ ((personalizedRecommendations fallbackCatalog [] [] 10).1.length = 10
        ∧ (personalizedRecommendations fallbackCatalog [] [] 10).2 = []) :=
  ⟨by decide, scorer_failure_and_fallback.2.2 fallbackCatalog (by decide)⟩

/-! ## Genre-score accounting (C7) -/

/-- Read a genre's accumulated score out of the assoc list
(genreScores[g] || 0 on the JS object). -/
def scoreOf (m : List (String × ℚ)) (g : String) : ℚ :=
  ((m.find? (fun p => p.1 == g)).map (fun p => p.2)).getD 0

theorem scoreOf_cons (a : String × ℚ) (m : List (String × ℚ)) (g : String) :
    scoreOf (a :: m) g = if a.1 == g then a.2 else scoreOf m g := by
  unfold scoreOf
  by_cases h : (a.1 == g) = true
  · rw [@List.find?_cons_of_pos _ (fun p => p.1 == g) a m h, if_pos h]
    rfl
  · rw [@List.find?_cons_of_neg _ (fun p => p.1 == g) a m (by simpa using h), if_neg h]

theorem bumpGenre_cons_ne {p : String × ℚ} {g : String} (h : ¬ p.1 = g)
    (w : ℚ) (m : List (String × ℚ)) :
    bumpGenre g w (p :: m) = p :: bumpGenre g w m := by
  unfold bumpGenre
  have hb : (p.1 == g) = false := by simp [h]
  rw [List.any_cons, hb]
  simp only [Bool.false_or]
  by_cases ha : m.any (fun q => q.1 == g) = true
  · rw [if_pos ha, if_pos ha, List.map_cons]
    have hfa : (if (p.1 == g) = true then (p.1, p.2 + w) else p) = p := by
      rw [hb]
      simp
    rw [hfa]
  · rw [if_neg ha, if_neg ha, List.cons_append]

theorem scoreOf_map_update_ne (g gq : String) (w : ℚ)
    (m : List (String × ℚ)) (h : gq ≠ g) :
    scoreOf (m.map (fun p => if p.1 == g then (p.1, p.2 + w) else p)) gq
      = scoreOf m gq := by
  induction m with
  | nil => rfl
  | cons a m ih =>
    by_cases hag : a.1 = g
    · have hfa : (if (a.1 == g) = true then (a.1, a.2 + w) else a) = (a.1, a.2 + w) := by
        simp [hag]
      have hbq : (a.1 == gq) = false := by simp [hag, Ne.symm h]
      rw [List.map_cons, hfa, scoreOf_cons, scoreOf_cons]
      simp only [hbq, Bool.false_eq_true, if_false]
      exact ih
    · have hfa : (if (a.1 == g) = true then (a.1, a.2 + w) else a) = a := by
        simp [hag]
      rw [List.map_cons, hfa, scoreOf_cons, scoreOf_cons]
      by_cases h2 : (a.1 == gq) = true
      · rw [if_pos h2, if_pos h2]
      · rw [if_neg h2, if_neg h2, ih]

theorem scoreOf_append_one (gq g : String) (w : ℚ) (m : List (String × ℚ))
    (h : gq ≠ g) : scoreOf (m ++ [(g, w)]) gq = scoreOf m gq := by
  induction m with
  | nil =>
    rw [List.nil_append, scoreOf_cons]
    have : ((g, w).1 == gq) = false := by simp [Ne.symm h]
    rw [this]
    simp
  | cons a m ih =>
    rw [List.cons_append, scoreOf_cons, scoreOf_cons]
    by_cases h2 : (a.1 == gq) = true
    · rw [if_pos h2, if_pos h2]
    · rw [if_neg h2, if_neg h2, ih]

theorem scoreOf_bumpGenre_same (g : String) (w : ℚ) (m : List (String × ℚ)) :
    scoreOf (bumpGenre g w m) g = scoreOf m g + w := by
  induction m with
  | nil =>
    unfold bumpGenre
    simp [scoreOf]
  | cons a m ih =>
    by_cases hag : a.1 = g
    · have hany : (a :: m).any (fun p => p.1 == g) = true := by
        simp [List.any_cons, hag]
      have hfa : (if (a.1 == g) = true then (a.1, a.2 + w) else a) = (a.1, a.2 + w) := by
        simp [hag]
      unfold bumpGenre
      rw [if_pos hany, List.map_cons, hfa, scoreOf_cons, scoreOf_cons]
      simp [hag]
    · rw [bumpGenre_cons_ne hag w m, scoreOf_cons, scoreOf_cons]
      have hb : (a.1 == g) = false := by simp [hag]
      rw [hb]
      simp only [Bool.false_eq_true, if_false]
      exact ih

theorem scoreOf_bumpGenre_ne (g gq : String) (w : ℚ) (m : List (String × ℚ))
    (h : gq ≠ g) : scoreOf (bumpGenre g w m) gq = scoreOf m gq := by
  unfold bumpGenre
  split
  · exact scoreOf_map_update_ne g gq w m h
  · exact scoreOf_append_one gq g w m h

theorem scoreOf_bumpGenres (gs : List String) (w : ℚ)
    (m : List (String × ℚ)) (g : String) :
    scoreOf (bumpGenres gs w m) g = scoreOf m g + (gs.count g : ℚ) * w := by
  induction gs generalizing m with
  | nil => simp [bumpGenres]
  | cons a gs ih =>
    show scoreOf (bumpGenres gs w (bumpGenre a w m)) g = _
    rw [ih]
    by_cases hag : a = g
    · subst hag
      rw [scoreOf_bumpGenre_same, List.count_cons_self]
      push_cast
      ring
    · rw [scoreOf_bumpGenre_ne a g w m (fun hh => hag hh.symm),
        List.count_cons_of_ne (fun hh => hag hh.symm)]

/-- The spec-side total weight a genre receives from the history pass:
entry at position i contributes historyWeight i per occurrence of the genre
among its resolved content's genre tags; unresolved entries contribute 0
but still advance the position. -/
def historyGenreSum (catalog : List Content) (g : String) :
    Nat → List HistoryEntry → ℚ
  | _, [] => 0
  | i, e :: rest =>
      (match resolveContent catalog e.contentId with
       | none => 0
       | some c => (c.genres.count g : ℚ) * historyWeight i)
        + historyGenreSum catalog g (i + 1) rest

/-- The spec-side total weight a genre receives from the watchlist pass:
flat 2 per occurrence among each resolved item's genre tags. -/
def watchlistGenreSum (catalog : List Content) (g : String) : List Nat → ℚ
  | [] => 0
  | cid :: rest =>
      (match resolveContent catalog cid with
       | none => 0
       | some c => (c.genres.count g : ℚ) * 2)
        + watchlistGenreSum catalog g rest

theorem scoreOf_scoreHistoryAux (catalog : List Content) (g : String)
    (hist : List HistoryEntry) :
    ∀ (i : Nat) (m : List (String × ℚ)),
      scoreOf (scoreHistoryAux catalog i m hist) g
        = scoreOf m g + historyGenreSum catalog g i hist := by
  induction hist with
  | nil =>
    intro i m
    simp [scoreHistoryAux, historyGenreSum]
  | cons e rest ih =>
    intro i m
    show scoreOf (scoreHistoryAux catalog (i + 1)
        (match resolveContent catalog e.contentId with
         | none => m
         | some c => bumpGenres c.genres (historyWeight i) m) rest) g = _
    cases hres : resolveContent catalog e.contentId with
    | none =>
      rw [ih]
      simp only [historyGenreSum, hres]
      ring
    | some c =>
      rw [ih, scoreOf_bumpGenres]
      simp only [historyGenreSum, hres]
      ring

theorem scoreOf_scoreWatchlist (catalog : List Content) (g : String)
    (wl : List Nat) :
    ∀ m : List (String × ℚ),
      scoreOf (scoreWatchlist catalog wl m) g
        = scoreOf m g + watchlistGenreSum catalog g wl := by
  induction wl with
  | nil =>
    intro m
    simp [scoreWatchlist, watchlistGenreSum]
  | cons cid rest ih =>
    intro m
    show scoreOf (scoreWatchlist catalog rest
        (match resolveContent catalog cid with
         | none => m
         | some c => bumpGenres c.genres 2 m)) g = _
    cases hres : resolveContent catalog cid with
    | none =>
      rw [ih]
      simp only [watchlistGenreSum, hres]
      ring
    | some c =>
      rw [ih, scoreOf_bumpGenres]
      simp only [watchlistGenreSum, hres]
      ring

/-- A Drama catalog item for the C7 example. -/
def dramaContent (i : Nat) : Content :=
  { id := i, ctype := "movie", genres := ["Drama"], status := "published"
    views := 0, imdbRating := 7, createdAt := 0, subscriptionRequired := .free }

/-- Two Drama catalog items A and B. -/
def dramaCatalog : List Content := [dramaContent 1, dramaContent 2]

/-- History [(A, Drama), (B, Drama)] at positions 0 and 1. -/
def dramaHistory : List HistoryEntry :=
  [{ contentId := 1, watchedAt := 0, progress := 50, completed := false },
   { contentId := 2, watchedAt := 0, progress := 50, completed := false }]

/-- C7: Genre scoring.  (a) Every genre's accumulated score equals the sum,
over history entries at positions i, of max(1, 10 - i*0.5) per occurrence of
the genre in the entry's resolved content, plus a flat 2 per occurrence from
each resolved watchlist item; (b) the score sort is ordered descending by
score; (c) the sort is stable — entries with equal scores keep their
first-encountered order (topGenres is the first 5 of this sorted list); and
(d) for history [(A, genres=[Drama]), (B, genres=[Drama])] at positions 0
and 1, Drama's accumulated score is 10 + 9.5 = 19.5. -/
theorem genre_scoring_spec :
    (∀ (catalog : List Content) (history : List HistoryEntry)
        (watchlist : List Nat) (g : String),
        scoreOf (genreScoresOf catalog history watchlist) g
          = historyGenreSum catalog g 0 history
            + watchlistGenreSum catalog g watchlist)
    ∧ (∀ l : List (String × ℚ),
        (sortDescBy (fun p : String × ℚ => p.2) l).Pairwise (fun a b => b.2 ≤ a.2))
    ∧ (∀ (l : List (String × ℚ)) (v : ℚ),
        (sortDescBy (fun p : String × ℚ => p.2) l).filter (fun a => decide ((fun p : String × ℚ => p.2) a = v))
          = l.filter (fun a => decide ((fun p : String × ℚ => p.2) a = v)))
    ∧ scoreOf (genreScoresOf dramaCatalog dramaHistory []) "Drama" = 39 / 2 := by
  refine ⟨?_, ?_, ?_, ?_⟩
  · intro catalog history watchlist g
    unfold genreScoresOf
    rw [scoreOf_scoreWatchlist, scoreOf_scoreHistoryAux]
    have h0 : scoreOf [] g = 0 := rfl
    rw [h0]
    ring
  · intro l
    exact sortDescBy_sorted (fun p : String × ℚ => p.2) l
  · intro l v
    exact filter_sortDescBy_eq (fun p : String × ℚ => p.2) l v
  · unfold genreScoresOf
    rw [scoreOf_scoreWatchlist, scoreOf_scoreHistoryAux]
    have h0 : scoreOf [] "Drama" = 0 := rfl
    have hr1 : resolveContent dramaCatalog 1 = some (dramaContent 1) := rfl
    have hr2 : resolveContent dramaCatalog 2 = some (dramaContent 2) := rfl
    have hc1 : List.count "Drama" (dramaContent 1).genres = 1 := rfl
    have hc2 : List.count "Drama" (dramaContent 2).genres = 1 := rfl
    rw [h0]
    simp only [historyGenreSum, watchlistGenreSum, dramaHistory, hr1, hr2, hc1, hc2]
    norm_num [historyWeight, max_def]

end NetflixClone
